import Mathlib

/-!
Formal model of the Mathics3 symbol-definition and rule-dispatch engine
(`mathics/core/definitions.py`): rule classification (`get_tag_position`),
ordered rule insertion (`insert_rule`), per-symbol `Definition` records,
the layered `Definitions` symbol table with its builtin/pymathics/user
namespaces, name resolution (`lookup_name`), the two caches
(`definitions_cache`, `lookup_cache`) with their `proxy` reverse index,
and the mutating operations.

Python dictionaries are modelled as association lists preserving insertion
order (`Dict`); Python object identity for `Definition` objects is modelled
by an allocation counter `next_id` stamped into each freshly constructed
record's `id` field.  In-place list mutation through aliases (the format
value lists shared between a source `Definition` and the merge loop in
`get_definition`) is modelled by writing the mutated record back into the
namespace map that owns it.
-/

/-- Expression trees as consumed from the parser layer: symbols, string
atoms, other atoms (identified by their head name, for example the integer
head), and compound expressions. -/
inductive Expr where
  | sym (name : String)
  | str (val : String)
  | atom (headName : String)
  | expr (head : Expr) (elements : List Expr)

/-- `get_name`: the symbol name for symbols, `""` for everything else. -/
def Expr.get_name : Expr → String
  | .sym n => n
  | _ => ""

/-- `isinstance(pattern, Atom)`: everything except compound expressions. -/
def Expr.isAtom : Expr → Bool
  | .expr _ _ => false
  | _ => true

/-- `get_head_name`: for a compound expression, the name of its head. -/
def Expr.get_head_name : Expr → String
  | .sym _ => "System`Symbol"
  | .str _ => "System`String"
  | .atom h => h
  | .expr h _ => h.get_name

/-- Modelled from the spec: the "lookup name" is effectively the
head-of-head of an expression (`mathics.core.symbols`/`expression` are not
part of the excerpt).  A symbol's lookup name is itself; a compound
expression's lookup name is the lookup name of its head; non-symbol atoms
have no lookup name. -/
def Expr.get_lookup_name : Expr → String
  | .sym n => n
  | .str _ => ""
  | .atom _ => ""
  | .expr h _ => h.get_lookup_name

mutual

/-- Structural equality, the `sameQ` predicate exposed by the expression
layer and used for rule dedup and removal. -/
def Expr.sameQ : Expr → Expr → Bool
  | .sym a, .sym b => a == b
  | .str a, .str b => a == b
  | .atom a, .atom b => a == b
  | .expr h1 es1, .expr h2 es2 => h1.sameQ h2 && Expr.sameQList es1 es2
  | _, _ => false

/-- `sameQ` lifted elementwise to argument lists. -/
def Expr.sameQList : List Expr → List Expr → Bool
  | [], [] => true
  | a :: as, b :: bs => a.sameQ b && Expr.sameQList as bs
  | _, _ => false

end

/-- Rewrite rule as consumed by this engine.  Modelled from the spec: a
`Rule` exposes the pattern it matches on, its replacement, and an intrinsic
numeric ordering key (precedence); the key computation itself lives in the
rule/pattern layer outside this core. -/
structure Rule where
  pattern : Expr
  rhs : Expr
  key : Nat

/-- `get_tag_position(pattern, name)`: classify a rule's left-hand pattern
against the symbol `name` into one of the rule categories. -/
def get_tag_position (pattern : Expr) (name : String) : Option String :=
  if pattern.get_name = name then some "own"
  else
    match pattern with
    | .sym _ => none
    | .str _ => none
    | .atom _ => none
    | .expr h elems =>
      if h.get_name = name then some "down"
      else if h.get_name = "System`N" ∧ elems.length = 2 then some "n"
      else if h.get_name = "System`Condition" ∧ 0 < elems.length then
        match elems with
        | e :: _ => get_tag_position e name
        | [] => none
      else if h.get_lookup_name = name then some "sub"
      else if elems.any (fun e => e.get_lookup_name == name) then some "up"
      else none

/-- `bisect.insort_left(values, rule)`: insert the rule before the first
element whose key is not smaller, so that among equal keys the new rule is
leftmost. -/
def insort_left (values : List Rule) (rule : Rule) : List Rule :=
  match values with
  | [] => [rule]
  | v :: vs => if rule.key ≤ v.key then rule :: v :: vs else v :: insort_left vs rule

/-- The removal loop of `insert_rule`: delete the first rule whose pattern
is `sameQ` to the given pattern (the loop breaks after the first hit). -/
def removeSameQ (values : List Rule) (pat : Expr) : List Rule :=
  match values with
  | [] => []
  | v :: vs => if v.pattern.sameQ pat then vs else v :: removeSameQ vs pat

/-- `insert_rule(values, rule)`: dedup by `sameQ` on the pattern, then
insert with `insort_left`. -/
def insert_rule (values : List Rule) (rule : Rule) : List Rule :=
  insort_left (removeSameQ values rule.pattern) rule

/-- The removal loop of `Definition.remove_rule`: delete the first rule
whose pattern is `sameQ` to `lhs`, reporting whether one was found. -/
def removeFirstRule (values : List Rule) (lhs : Expr) : Option (List Rule) :=
  match values with
  | [] => none
  | v :: vs =>
    if v.pattern.sameQ lhs then some vs
    else (removeFirstRule vs lhs).map (fun r => v :: r)

/-- Python `dict` with string keys, modelled as an association list that
preserves insertion order. -/
abbrev Dict (α : Type) : Type := List (String × α)

/-- `d.get(k, None)`: first entry with the given key. -/
def Dict.find? {α : Type} (d : Dict α) (k : String) : Option α :=
  match d with
  | [] => none
  | kv :: rest => if kv.1 = k then some kv.2 else Dict.find? rest k

/-- `d[k] = v`: replace the value at the first occurrence of the key,
keeping its position, or append a fresh entry. -/
def Dict.insert {α : Type} (d : Dict α) (k : String) (v : α) : Dict α :=
  match d with
  | [] => [(k, v)]
  | kv :: rest => if kv.1 = k then (k, v) :: rest else kv :: Dict.insert rest k v

/-- `d.pop(k, None)` (ignoring the returned value): drop the first entry
with the given key. -/
def Dict.erase {α : Type} (d : Dict α) (k : String) : Dict α :=
  match d with
  | [] => []
  | kv :: rest => if kv.1 = k then rest else kv :: Dict.erase rest k

/-- `k in d`. -/
def Dict.hasKey {α : Type} (d : Dict α) (k : String) : Bool :=
  (Dict.find? d k).isSome

/-- `d.update(src)`: fold the entries of `src` into `d`, later entries
overwriting earlier values at the same key. -/
def Dict.updateAll {α : Type} (d src : Dict α) : Dict α :=
  src.foldl (fun acc kv => Dict.insert acc kv.1 kv.2) d

/-- `A_NO_ATTRIBUTES` from `mathics.core.attributes`: the empty attribute
bit set. -/
def A_NO_ATTRIBUTES : Nat := 0

/-- Per-symbol, per-namespace `Definition` record.  The `id` field models
Python object identity: every `Definition(...)` construction stamps a fresh
allocation number.  `changed` is unset at construction and stamped by
`Definitions.mark_changed`. -/
structure Definition where
  id : Nat
  name : String
  ownvalues : List Rule
  downvalues : List Rule
  subvalues : List Rule
  upvalues : List Rule
  nvalues : List Rule
  defaultvalues : List Rule
  messages : List Rule
  formatvalues : Dict (List Rule)
  attributes : Nat
  options : Dict Expr
  is_numeric : Bool
  builtinRef : Option Nat
  changed : Option Nat

/-- `Definition(name=..., attributes=..., is_numeric=...)` with every rule
list left at its empty default. -/
def Definition.mkEmpty (id : Nat) (name : String) (attributes : Nat)
    (is_numeric : Bool) : Definition :=
  { id := id, name := name, ownvalues := [], downvalues := [], subvalues := [],
    upvalues := [], nvalues := [], defaultvalues := [], messages := [],
    formatvalues := [], attributes := attributes, options := [],
    is_numeric := is_numeric, builtinRef := none, changed := none }

/-- `Definition.get_values_list(pos)` for the category names produced by
`get_tag_position` (the reflective `getattr` lookup). -/
def Definition.get_values_list (d : Definition) (pos : String) : List Rule :=
  if pos = "messages" then d.messages
  else if pos = "own" then d.ownvalues
  else if pos = "down" then d.downvalues
  else if pos = "sub" then d.subvalues
  else if pos = "up" then d.upvalues
  else if pos = "n" then d.nvalues
  else if pos = "default" then d.defaultvalues
  else []

/-- `Definition.set_values_list(pos, rules)` (the reflective `setattr`). -/
def Definition.set_values_list (d : Definition) (pos : String)
    (rules : List Rule) : Definition :=
  if pos = "messages" then { d with messages := rules }
  else if pos = "own" then { d with ownvalues := rules }
  else if pos = "down" then { d with downvalues := rules }
  else if pos = "sub" then { d with subvalues := rules }
  else if pos = "up" then { d with upvalues := rules }
  else if pos = "n" then { d with nvalues := rules }
  else if pos = "default" then { d with defaultvalues := rules }
  else d

/-- `Definition.add_rule_at(rule, position)`. -/
def Definition.add_rule_at (d : Definition) (rule : Rule) (position : String) :
    Bool × Definition :=
  (true, d.set_values_list position (insert_rule (d.get_values_list position) rule))

/-- `Definition.add_rule(rule)`: classify the pattern against the
definition's own name, then insert; `false` when unclassifiable. -/
def Definition.add_rule (d : Definition) (rule : Rule) : Bool × Definition :=
  match get_tag_position rule.pattern d.name with
  | some pos => d.add_rule_at rule pos
  | none => (false, d)

/-- `Definition.remove_rule(lhs)`: classify, then delete the first rule in
the chosen category whose pattern is `sameQ` to `lhs`; `false` when
unclassifiable or not found. -/
def Definition.remove_rule (d : Definition) (lhs : Expr) : Bool × Definition :=
  match get_tag_position lhs d.name with
  | some pos =>
    match removeFirstRule (d.get_values_list pos) lhs with
    | some vs => (true, d.set_values_list pos vs)
    | none => (false, d)
  | none => (false, d)

/-- The context mark character (the backquote, code point 96). -/
def contextMark : Char := Char.ofNat 96

/-- Modelled from the spec (`strip_context` lives in
`mathics.core.symbols`, outside the excerpt): the context-stripped short
form of a name is everything after the last context mark. -/
def strip_context (name : String) : String :=
  String.mk (name.data.foldl (fun acc c => if c = contextMark then [] else acc.concat c) [])

/-- Whether a character list contains two adjacent context marks. -/
def hasDoubleMark : List Char → Bool
  | c1 :: c2 :: rest => (c1 = contextMark && c2 = contextMark) || hasDoubleMark (c2 :: rest)
  | _ => false

/-- Modelled from the spec (`fully_qualified_symbol_name` lives in
`mathics.core.element`, outside the excerpt): a name is fully qualified
when it contains a context mark in a well-formed position — not leading,
not trailing, never doubled. -/
def fully_qualified_symbol_name (name : String) : Bool :=
  name.data.contains contextMark
    && !(name.data.head? = some contextMark : Bool)
    && !(name.data.getLast? = some contextMark : Bool)
    && !(hasDoubleMark name.data)

/-- `name.lstrip(backtick)` prefixed with the current context. -/
def stripLeadingMarks (name : String) : String :=
  String.mk (name.data.dropWhile (fun c => c == contextMark))

/-- The layered symbol table (`class Definitions`): the three namespaces,
the two caches, the reverse index, resolution state, the logical clock, and
the allocation counter modelling Python object identity. -/
structure Definitions where
  builtin : Dict Definition
  user : Dict Definition
  pymathics : Dict Definition
  definitions_cache : Dict Definition
  lookup_cache : Dict String
  proxy : Dict (List String)
  now : Nat
  current_context : String
  context_path : List String
  next_id : Nat

/-- `self.proxy[strip_context(original)].add(original)` — the reverse index
bucket behaves as a set. -/
def proxyAdd (p : Dict (List String)) (tail original : String) :
    Dict (List String) :=
  match Dict.find? p tail with
  | some l => if l.contains original then p else Dict.insert p tail (l ++ [original])
  | none => Dict.insert p tail [original]

/-- `Definitions.clear_cache(name)`: with no name, drop both caches and the
reverse index wholesale; with a name, evict every original name registered
under its short form from both caches and drop that index bucket. -/
def Definitions.clear_cache (st : Definitions) (name : Option String) :
    Definitions :=
  match name with
  | none => { st with definitions_cache := [], lookup_cache := [], proxy := [] }
  | some n =>
    let tail := strip_context n
    let ks := (Dict.find? st.proxy tail).getD []
    { st with
      proxy := Dict.erase st.proxy tail,
      definitions_cache := ks.foldl (fun d k => Dict.erase d k) st.definitions_cache,
      lookup_cache := ks.foldl (fun d k => Dict.erase d k) st.lookup_cache }

/-- `Definitions.clear_definitions_cache(name)`: like
`clear_cache(name)` but touching only the merged-definition cache. -/
def Definitions.clear_definitions_cache (st : Definitions) (n : String) :
    Definitions :=
  let tail := strip_context n
  let ks := (Dict.find? st.proxy tail).getD []
  { st with
    proxy := Dict.erase st.proxy tail,
    definitions_cache := ks.foldl (fun d k => Dict.erase d k) st.definitions_cache }

/-- The cache registration at the end of a successful
`Definitions.get_definition`: register the original name in the reverse
index and both caches. -/
def cacheResult (st : Definitions) (original full : String) (d : Definition) :
    Definitions :=
  { st with
    proxy := proxyAdd st.proxy (strip_context original) original,
    definitions_cache := Dict.insert st.definitions_cache original d,
    lookup_cache := Dict.insert st.lookup_cache original full }

/-- Which namespace contributed a candidate during a merge (used to model
the in-place aliasing of format-value lists). -/
inductive Src where
  | user
  | pym
  | blt
deriving DecidableEq

/-- Accumulator of the format-value merge loop: form name, owning source of
the aliased list (none for the fresh default bucket), current list. -/
abbrev FmtAcc : Type := List (String × Option Src × List Rule)

/-- One `formatvalues[form].extend(rules)` / `formatvalues[form] = rules`
step of the merge loop: extend the existing (possibly aliased) bucket, or
install the source's own list, recording the alias owner. -/
def fmtAdd (acc : FmtAcc) (tag : Src) (form : String) (rules : List Rule) :
    FmtAcc :=
  match acc with
  | [] => [(form, some tag, rules)]
  | (f, ow, l) :: rest =>
    if f = form then (f, ow, l ++ rules) :: rest
    else (f, ow, l) :: fmtAdd rest tag form rules

/-- `for form, rules in curr.formatvalues.items(): ...` for one source. -/
def fmtStep (acc : FmtAcc) (tag : Src) (fv : Dict (List Rule)) : FmtAcc :=
  fv.foldl (fun a kv => fmtAdd a tag kv.1 kv.2) acc

/-- The observable effect of the merge loop's list aliasing on a source
`Definition`: every aliased bucket it owns now holds the extended list. -/
def fmtWriteBack (acc : FmtAcc) (tag : Src) (d : Definition) : Definition :=
  { d with
    formatvalues :=
      acc.foldl
        (fun fv e => if e.2.1 = some tag then Dict.insert fv e.1 e.2.2 else fv)
        d.formatvalues }

/-- The body of `Definitions.get_definition` after the top cache check and
name resolution: gather candidates from the user, pymathics and builtin
namespaces, take the single candidate as-is, merge several, or auto-vivify
a fresh user entry. -/
def getDefinitionResolved (st : Definitions) (original full : String)
    (only_if_exists : Bool) : Option Definition × Definitions :=
  let uOpt := Dict.find? st.user full
  let pOpt := Dict.find? st.pymathics full
  let bOpt := Dict.find? st.builtin full
  let candidates := uOpt.toList ++ pOpt.toList ++ bOpt.toList
  match candidates with
  | [] =>
    if only_if_exists then (none, st)
    else
      let d := Definition.mkEmpty st.next_id full A_NO_ATTRIBUTES false
      let st1 := { st with next_id := st.next_id + 1 }
      let st2 :=
        if full.data.getLast? = some contextMark then st1
        else { st1 with user := Dict.insert st1.user full d }
      (some d, st2)
  | [d] => (some d, cacheResult st original full d)
  | _ =>
    let ai :=
      match uOpt with
      | some u => (u.attributes, u.is_numeric)
      | none =>
        match pOpt with
        | some p => (p.attributes, p.is_numeric)
        | none =>
          match bOpt with
          | some b => (b.attributes, b.is_numeric)
          | none => (A_NO_ATTRIBUTES, false)
    let tagged : List (Src × Definition) :=
      (uOpt.toList.map (fun d => (Src.user, d)))
        ++ (pOpt.toList.map (fun d => (Src.pym, d)))
        ++ (bOpt.toList.map (fun d => (Src.blt, d)))
    let rev := tagged.reverse
    let opts := rev.foldl (fun o td => Dict.updateAll o td.2.options) []
    let acc := rev.foldl (fun a td => fmtStep a td.1 td.2.formatvalues)
      [("", none, [])]
    let builtinRef :=
      match pOpt with
      | some p => some p.id
      | none =>
        match bOpt with
        | some b => some b.id
        | none => none
    let newDef : Definition :=
      { id := st.next_id, name := full,
        ownvalues := (candidates.map (fun c => c.ownvalues)).flatten,
        downvalues := (candidates.map (fun c => c.downvalues)).flatten,
        subvalues := (candidates.map (fun c => c.subvalues)).flatten,
        upvalues := (candidates.map (fun c => c.upvalues)).flatten,
        nvalues := (candidates.map (fun c => c.nvalues)).flatten,
        defaultvalues := (candidates.map (fun c => c.defaultvalues)).flatten,
        messages := (candidates.map (fun c => c.messages)).flatten,
        formatvalues := acc.map (fun e => (e.1, e.2.2)),
        attributes := ai.1, options := opts, is_numeric := ai.2,
        builtinRef := builtinRef, changed := none }
    let st1 :=
      { st with
        next_id := st.next_id + 1,
        user :=
          match uOpt with
          | some u => Dict.insert st.user full (fmtWriteBack acc Src.user u)
          | none => st.user,
        pymathics :=
          match pOpt with
          | some p => Dict.insert st.pymathics full (fmtWriteBack acc Src.pym p)
          | none => st.pymathics,
        builtin :=
          match bOpt with
          | some b => Dict.insert st.builtin full (fmtWriteBack acc Src.blt b)
          | none => st.builtin }
    (some newDef, cacheResult st1 original full newDef)

/-- The non-searching cases of `lookup_name` (fully qualified names,
explicit current-context marks, already-scoped names).  The recursive
`lookup_name` calls reached through `have_definition` during the search
loop always carry a context-qualified candidate, so they resolve through
exactly these cases; the final fallthrough mirrors the search loop's
default for well-formed (mark-terminated) contexts. -/
def quickResolve (st : Definitions) (n : String) : String :=
  if fully_qualified_symbol_name n then n
  else if n.data.contains contextMark then
    if n.data.head? = some contextMark then st.current_context ++ stripLeadingMarks n
    else n
  else st.current_context ++ n

/-- `Definitions.have_definition(n)` as invoked from the search loop of
`lookup_name`: `get_definition(n, only_if_exists=True) is not None`,
including its cache registration and merge side effects. -/
def have_definition (st : Definitions) (n : String) : Bool × Definitions :=
  match Dict.find? st.definitions_cache n with
  | some _ => (true, st)
  | none =>
    let full :=
      match Dict.find? st.lookup_cache n with
      | some c => c
      | none => quickResolve st n
    let (dOpt, st1) := getDefinitionResolved st n full true
    (dOpt.isSome, st1)

/-- The context-path search loop of `lookup_name`, threading the cache
side effects of `have_definition`. -/
def lookupSearch (cur name : String) : List String → Definitions →
    String × Definitions
  | [], st => (cur ++ name, st)
  | ctx :: rest, st =>
    let (found, st1) := have_definition st (ctx ++ name)
    if found then (ctx ++ name, st1) else lookupSearch cur name rest st1

/-- `Definitions.lookup_name(name)`: consult the lookup cache, pass through
fully qualified names, resolve explicit current-context marks, and
otherwise search the context path (note: the current context itself is not
probed — its check is commented out in the source — it only serves as the
default when no context-path candidate exists). -/
def Definitions.lookup_name (st : Definitions) (name : String) :
    String × Definitions :=
  match Dict.find? st.lookup_cache name with
  | some c => (c, st)
  | none =>
    if fully_qualified_symbol_name name then (name, st)
    else if name.data.contains contextMark then
      if name.data.head? = some contextMark then
        (st.current_context ++ stripLeadingMarks name, st)
      else (name, st)
    else lookupSearch st.current_context name st.context_path st

/-- `Definitions.get_definition(name, only_if_exists)`. -/
def Definitions.get_definition (st : Definitions) (name : String)
    (only_if_exists : Bool) : Option Definition × Definitions :=
  match Dict.find? st.definitions_cache name with
  | some d => (some d, st)
  | none =>
    let (full, st1) := st.lookup_name name
    getDefinitionResolved st1 name full only_if_exists

/-- `Definitions.get_user_definition(name, create)`: the existing user
entry, or a fresh one seeded with the builtin's attributes and numeric
flag, registered and followed by `clear_cache(name)`. -/
def Definitions.get_user_definition (st : Definitions) (name : String)
    (create : Bool) : Option Definition × Definitions :=
  match Dict.find? st.user name with
  | some d => (some d, st)
  | none =>
    if !create then (none, st)
    else
      let ai :=
        match Dict.find? st.builtin name with
        | some b => (b.attributes, b.is_numeric)
        | none => (A_NO_ATTRIBUTES, false)
      let d := Definition.mkEmpty st.next_id name ai.1 ai.2
      let st1 := { st with next_id := st.next_id + 1,
                           user := Dict.insert st.user name d }
      (some d, st1.clear_cache (some name))

/-- `Definitions.set_attribute(name, attribute)`: or the bit into the user
definition, stamp the clock, clear the merged-definition cache. -/
def Definitions.set_attribute (st : Definitions) (name : String)
    (attr : Nat) : Definitions :=
  let (full, st0) := st.lookup_name name
  match (st0.get_user_definition full true) with
  | (some d, st1) =>
    let d1 := { d with attributes := d.attributes ||| attr }
    let st2 := { st1 with user := Dict.insert st1.user full d1 }
    let st3 := { st2 with now := st2.now + 1 }
    let d2 := { d1 with changed := some st3.now }
    let st4 := { st3 with user := Dict.insert st3.user full d2 }
    st4.clear_definitions_cache name
  | (none, st1) => st1

/-- `Definitions.add_rule(name, rule, position)`: classify-and-insert into
the user definition (or insert directly at `position`), stamp the clock,
clear the merged-definition cache; passes the insertion outcome through. -/
def Definitions.add_rule (st : Definitions) (name : String) (rule : Rule)
    (position : Option String) : Bool × Definitions :=
  let (full, st0) := st.lookup_name name
  match (st0.get_user_definition full true) with
  | (some d, st1) =>
    let rd :=
      match position with
      | none => d.add_rule rule
      | some pos => d.add_rule_at rule pos
    let st2 := { st1 with user := Dict.insert st1.user full rd.2 }
    let st3 := { st2 with now := st2.now + 1 }
    let d2 := { rd.2 with changed := some st3.now }
    let st4 := { st3 with user := Dict.insert st3.user full d2 }
    (rd.1, st4.clear_definitions_cache name)
  | (none, st1) => (false, st1)

/-- `Definitions.unset(name, expr)`: remove the classified rule from the
user definition (created on demand), stamp the clock, clear the
merged-definition cache; passes the removal outcome through. -/
def Definitions.unset (st : Definitions) (name : String) (expr : Expr) :
    Bool × Definitions :=
  let (full, st0) := st.lookup_name name
  match (st0.get_user_definition full true) with
  | (some d, st1) =>
    let rd := d.remove_rule expr
    let st2 := { st1 with user := Dict.insert st1.user full rd.2 }
    let st3 := { st2 with now := st2.now + 1 }
    let d2 := { rd.2 with changed := some st3.now }
    let st4 := { st3 with user := Dict.insert st3.user full d2 }
    (rd.1, st4.clear_definitions_cache name)
  | (none, st1) => (false, st1)

/-- `Definitions.set_attributes(name, attributes)`: replace the whole
attribute bit set of the user definition, stamp the clock, clear the
merged-definition cache. -/
def Definitions.set_attributes (st : Definitions) (name : String)
    (attrs : Nat) : Definitions :=
  let (full, st0) := st.lookup_name name
  match (st0.get_user_definition full true) with
  | (some d, st1) =>
    let d1 := { d with attributes := attrs }
    let st2 := { st1 with user := Dict.insert st1.user full d1 }
    let st3 := { st2 with now := st2.now + 1 }
    let d2 := { d1 with changed := some st3.now }
    let st4 := { st3 with user := Dict.insert st3.user full d2 }
    st4.clear_definitions_cache name
  | (none, st1) => st1

/-- `Definitions.clear_attribute(name, attribute)`: clear the given bits
(`attributes &= ~attribute` on non-negative machine integers is the
bitwise difference), stamp the clock, clear the merged-definition
cache. -/
def Definitions.clear_attribute (st : Definitions) (name : String)
    (attr : Nat) : Definitions :=
  let (full, st0) := st.lookup_name name
  match (st0.get_user_definition full true) with
  | (some d, st1) =>
    let d1 := { d with attributes := Nat.ldiff d.attributes attr }
    let st2 := { st1 with user := Dict.insert st1.user full d1 }
    let st3 := { st2 with now := st2.now + 1 }
    let d2 := { d1 with changed := some st3.now }
    let st4 := { st3 with user := Dict.insert st3.user full d2 }
    st4.clear_definitions_cache name
  | (none, st1) => st1

/-- The `form` argument of `add_format`: either a single form name or a
tuple/list of them (the `isinstance` normalization in the source). -/
inductive FormArg where
  | one (form : String)
  | many (forms : List String)

/-- The normalized list of form names. -/
def FormArg.forms : FormArg → List String
  | .one f => [f]
  | .many fs => fs

/-- One iteration of the `add_format` loop: create the bucket if the form
is absent, then `insert_rule` into it. -/
def Definition.addFormatRule (d : Definition) (f : String) (rule : Rule) :
    Definition :=
  let cur := (Dict.find? d.formatvalues f).getD []
  { d with formatvalues := Dict.insert d.formatvalues f (insert_rule cur rule) }

/-- `Definitions.add_format(name, rule, form)`: insert the rule into every
named format bucket of the user definition, stamp the clock, clear the
merged-definition cache. -/
def Definitions.add_format (st : Definitions) (name : String) (rule : Rule)
    (form : FormArg) : Definitions :=
  let (full, st0) := st.lookup_name name
  match (st0.get_user_definition full true) with
  | (some d, st1) =>
    let d1 := form.forms.foldl (fun dd f => dd.addFormatRule f rule) d
    let st2 := { st1 with user := Dict.insert st1.user full d1 }
    let st3 := { st2 with now := st2.now + 1 }
    let d2 := { d1 with changed := some st3.now }
    let st4 := { st3 with user := Dict.insert st3.user full d2 }
    st4.clear_definitions_cache name
  | (none, st1) => st1

/-- `Definitions.add_nvalue(name, rule)`: insert directly into the n-value
category, stamp the clock, clear the merged-definition cache. -/
def Definitions.add_nvalue (st : Definitions) (name : String) (rule : Rule) :
    Definitions :=
  let (full, st0) := st.lookup_name name
  match (st0.get_user_definition full true) with
  | (some d, st1) =>
    let d1 := (d.add_rule_at rule "n").2
    let st2 := { st1 with user := Dict.insert st1.user full d1 }
    let st3 := { st2 with now := st2.now + 1 }
    let d2 := { d1 with changed := some st3.now }
    let st4 := { st3 with user := Dict.insert st3.user full d2 }
    st4.clear_definitions_cache name
  | (none, st1) => st1

/-- `Definitions.add_default(name, rule)`: insert directly into the
default-value category, stamp the clock, clear the merged-definition
cache. -/
def Definitions.add_default (st : Definitions) (name : String) (rule : Rule) :
    Definitions :=
  let (full, st0) := st.lookup_name name
  match (st0.get_user_definition full true) with
  | (some d, st1) =>
    let d1 := (d.add_rule_at rule "default").2
    let st2 := { st1 with user := Dict.insert st1.user full d1 }
    let st3 := { st2 with now := st2.now + 1 }
    let d2 := { d1 with changed := some st3.now }
    let st4 := { st3 with user := Dict.insert st3.user full d2 }
    st4.clear_definitions_cache name
  | (none, st1) => st1

/-- `Definitions.add_message(name, rule)`: insert directly into the
messages category, stamp the clock, clear the merged-definition cache. -/
def Definitions.add_message (st : Definitions) (name : String) (rule : Rule) :
    Definitions :=
  let (full, st0) := st.lookup_name name
  match (st0.get_user_definition full true) with
  | (some d, st1) =>
    let d1 := (d.add_rule_at rule "messages").2
    let st2 := { st1 with user := Dict.insert st1.user full d1 }
    let st3 := { st2 with now := st2.now + 1 }
    let d2 := { d1 with changed := some st3.now }
    let st4 := { st3 with user := Dict.insert st3.user full d2 }
    st4.clear_definitions_cache name
  | (none, st1) => st1

/-- `valuesname`: the category short name of a values-symbol name, e.g.
the n category for the system NValues symbol (`name[7:-6].lower()` with
the messages special case). -/
def valuesname (name : String) : String :=
  if name = "System`Messages" then "messages"
  else
    let cs := name.data.drop 7
    String.mk ((cs.take (cs.length - 6)).map Char.toLower)

/-- `Definitions.set_values(name, values, rules)`: replace a whole category
of the user definition, stamp the clock, clear the merged-definition
cache. -/
def Definitions.set_values (st : Definitions) (name values : String)
    (rules : List Rule) : Definitions :=
  let pos := valuesname values
  let (full, st0) := st.lookup_name name
  match (st0.get_user_definition full true) with
  | (some d, st1) =>
    let d1 := d.set_values_list pos rules
    let st2 := { st1 with user := Dict.insert st1.user full d1 }
    let st3 := { st2 with now := st2.now + 1 }
    let d2 := { d1 with changed := some st3.now }
    let st4 := { st3 with user := Dict.insert st3.user full d2 }
    st4.clear_definitions_cache name
  | (none, st1) => st1

/-- `Definitions.set_options(name, options)`: replace the options map of
the user definition, stamp the clock, clear the merged-definition
cache. -/
def Definitions.set_options (st : Definitions) (name : String)
    (options : Dict Expr) : Definitions :=
  let (full, st0) := st.lookup_name name
  match (st0.get_user_definition full true) with
  | (some d, st1) =>
    let d1 := { d with options := options }
    let st2 := { st1 with user := Dict.insert st1.user full d1 }
    let st3 := { st2 with now := st2.now + 1 }
    let d2 := { d1 with changed := some st3.now }
    let st4 := { st3 with user := Dict.insert st3.user full d2 }
    st4.clear_definitions_cache name
  | (none, st1) => st1

/-- Modelled from the spec: rules constructed inside the table (for
`set_ownvalue`) carry the ordering key the external rule layer would
assign; since every ownvalue rule for a given symbol has the same bare
pattern, dedup makes the concrete key irrelevant and a fixed key is
faithful. -/
def defaultRuleKey : Nat := 0

/-- `Definitions.set_ownvalue(name, value)`: install
`Rule(Symbol(name), value)` and clear both caches for the name. -/
def Definitions.set_ownvalue (st : Definitions) (name : String) (value : Expr) :
    Definitions :=
  let (full, st0) := st.lookup_name name
  let st1 := (st0.add_rule full (Rule.mk (Expr.sym full) value defaultRuleKey) none).2
  st1.clear_cache (some full)

/-- `Definitions.set_current_context(context)`: record the context in the
`$Context` ownvalue, switch, and clear everything. -/
def Definitions.set_current_context (st : Definitions) (context : String) :
    Definitions :=
  let st1 := st.set_ownvalue "System`$Context" (Expr.str context)
  let st2 := { st1 with current_context := context }
  st2.clear_cache none

/-- `Definitions.set_context_path(context_path)`: record the path in the
`$ContextPath` ownvalue, switch, and clear everything. -/
def Definitions.set_context_path (st : Definitions) (context_path : List String) :
    Definitions :=
  let st1 := st.set_ownvalue "System`$ContextPath"
    (Expr.expr (Expr.sym "System`List") (context_path.map Expr.str))
  let st2 := { st1 with context_path := context_path }
  st2.clear_cache none

/-- `some a` if present, else `b` — used to state key-conflict priority of
merged option maps. -/
def orO {α : Type} (a b : Option α) : Option α :=
  match a with
  | some x => some x
  | none => b

/-- The pattern variable `x_` (`Pattern[x, Blank[]]`). -/
def blankX : Expr :=
  Expr.expr (Expr.sym "System`Pattern")
    [Expr.sym "Global`x", Expr.expr (Expr.sym "System`Blank") []]

/-- The down-value pattern `f[x_]`. -/
def fOfX : Expr := Expr.expr (Expr.sym "Global`f") [blankX]

/-- The conditional pattern `f[x_] /; x > 0`. -/
def fOfXCond : Expr :=
  Expr.expr (Expr.sym "System`Condition")
    [fOfX, Expr.expr (Expr.sym "System`Greater")
      [Expr.sym "Global`x", Expr.atom "System`Integer"]]

/-- The sub-value pattern `f[x_][x_]`. -/
def fOfXOfX : Expr := Expr.expr fOfX [blankX]

/-- The up-value pattern `g[f]`. -/
def gOfF : Expr := Expr.expr (Expr.sym "Global`g") [Expr.sym "Global`f"]

/-- A pattern mentioning `f` nowhere: `g[h]`. -/
def gOfH : Expr := Expr.expr (Expr.sym "Global`g") [Expr.sym "Global`h"]

/-- Concrete rule with a given precedence key and pattern. -/
def mkRule (k : Nat) (p : Expr) : Rule := Rule.mk p (Expr.sym "Global`rhs") k

/-- A bare `Definitions` state: empty namespaces and caches, default
resolution state as set up by `Definitions.__init__`. -/
def emptyDefs : Definitions :=
  { builtin := [], user := [], pymathics := [], definitions_cache := [],
    lookup_cache := [], proxy := [], now := 0, current_context := "Global`",
    context_path := ["System`", "Global`"], next_id := 0 }

/-- A builtin definition for the short name `x` in the `System` context. -/
def dSx : Definition := Definition.mkEmpty 0 "System`x" 0 false

/-- A builtin definition for the short name `x` in the `Global` context. -/
def dGx : Definition := Definition.mkEmpty 1 "Global`x" 0 false

/-- State for the name-resolution scenario: both candidate contexts hold a
definition for the short name `x`, and the current context is the later
context-path entry. -/
def stC4 : Definitions :=
  { emptyDefs with builtin := [("System`x", dSx), ("Global`x", dGx)], next_id := 2 }

/-- Format rules used in the merge-aliasing scenario. -/
def rF1 : Rule := mkRule 1 (Expr.sym "Global`p1")

/-- Second format rule used in the merge-aliasing scenario. -/
def rF2 : Rule := mkRule 2 (Expr.sym "Global`p2")

/-- Builtin definition carrying one format rule under form name `F`. -/
def dBf : Definition :=
  { Definition.mkEmpty 0 "Global`f" 0 false with formatvalues := [("F", [rF1])] }

/-- User definition carrying one format rule under the same form name. -/
def dUf : Definition :=
  { Definition.mkEmpty 1 "Global`f" 0 false with formatvalues := [("F", [rF2])] }

/-- State for the merge-aliasing scenario: the same symbol defined in both
the builtin and the user namespace, each with a format rule under form
`F`. -/
def stC7 : Definitions :=
  { emptyDefs with
    builtin := [("Global`f", dBf)], user := [("Global`f", dUf)], next_id := 2 }

/-- State for the invalidation-identity scenario: a single-namespace
builtin symbol whose definition object is currently cached under its own
name. -/
def stC6 : Definitions :=
  { emptyDefs with
    builtin := [("Global`f", dBf)],
    definitions_cache := [("Global`f", dBf)],
    lookup_cache := [("Global`f", "Global`f")],
    proxy := [("f", ["Global`f"])], next_id := 2 }

/-- State for the auto-vivification scenario: only the later context-path
candidate exists, so resolving the short name caches it; a symbol then
appears in the earlier candidate context. -/
def stC8 : Definitions :=
  { emptyDefs with builtin := [("Global`x", dGx)], next_id := 2 }

/-- The auto-vivification scenario after resolving and caching `x`. -/
def stC8a : Definitions := (stC8.get_definition "x" false).2

/-- The auto-vivification scenario after `get_definition` has created
`the system-context x symbol` (spelled with the context mark) in the user namespace. -/
def stC8b : Definitions := (stC8a.get_definition "System`x" false).2

/-- A plain user definition for the mutation scenario. -/
def dUser5 : Definition := Definition.mkEmpty 0 "Global`f" 0 false

/-- State for the mutation scenario: the symbol exists in the user
namespace and both caches hold entries for it. -/
def stC5 : Definitions :=
  { emptyDefs with
    user := [("Global`f", dUser5)],
    definitions_cache := [("Global`f", dUser5)],
    lookup_cache := [("Global`f", "Global`f")],
    proxy := [("f", ["Global`f"])], next_id := 1 }

/-- State for the failed-unset scenario: no user definition for the
symbol, but a cached merged definition registered in the reverse index. -/
def stC10 : Definitions :=
  { emptyDefs with
    definitions_cache := [("Global`g", dGx)],
    proxy := [("g", ["Global`g"])], next_id := 5, now := 7 }

/-- Options dictionaries for the merge-priority witness. -/
def optsU : Dict Expr := [("Global`opt", Expr.sym "Global`fromUser")]

/-- Builtin options map for the merge-priority witness: a conflicting and
a builtin-only key. -/
def optsB : Dict Expr :=
  [("Global`opt", Expr.sym "Global`fromBuiltin"),
   ("Global`only", Expr.sym "Global`builtinOnly")]

/-- User namespace definition for the merge witness. -/
def dMu : Definition :=
  { Definition.mkEmpty 0 "Global`f" 3 true with
    downvalues := [mkRule 5 (Expr.sym "Global`d2")], options := optsU }

/-- Pymathics namespace definition for the merge witness. -/
def dMp : Definition :=
  { Definition.mkEmpty 1 "Global`f" 5 false with
    downvalues := [mkRule 5 (Expr.sym "Global`dp")] }

/-- Builtin namespace definition for the merge witness. -/
def dMb : Definition :=
  { Definition.mkEmpty 2 "Global`f" 9 false with
    downvalues := [mkRule 5 (Expr.sym "Global`d1")], options := optsB }

/-- State for the three-namespace merge witness. -/
def stC1 : Definitions :=
  { emptyDefs with
    user := [("Global`f", dMu)], pymathics := [("Global`f", dMp)],
    builtin := [("Global`f", dMb)], next_id := 3 }

/-- State for the two-namespace (user and builtin) merge witness. -/
def stC1b : Definitions :=
  { emptyDefs with
    user := [("Global`f", dMu)], builtin := [("Global`f", dMb)], next_id := 3 }

/-- State for the two-namespace (user and pymathics) merge witness. -/
def stC1up : Definitions :=
  { emptyDefs with
    user := [("Global`f", dMu)], pymathics := [("Global`f", dMp)], next_id := 3 }

/-- State for the two-namespace (pymathics and builtin) merge witness: no
user entry, so the pymathics source is the highest-priority one present. -/
def stC1pb : Definitions :=
  { emptyDefs with
    pymathics := [("Global`f", dMp)], builtin := [("Global`f", dMb)],
    next_id := 3 }

/-- A stale previously-cached merged definition for the invalidation
witness (allocated strictly before the state's `next_id`). -/
def dC6old : Definition := Definition.mkEmpty 2 "Global`f" 0 false

/-- State for the invalidation-freshness witness: the symbol lives in both
the user and builtin namespaces and an older merged definition is cached
under its name. -/
def stC6w : Definitions :=
  { emptyDefs with
    user := [("Global`f", dMu)], builtin := [("Global`f", dMb)],
    definitions_cache := [("Global`f", dC6old)],
    lookup_cache := [("Global`f", "Global`f")],
    proxy := [("f", ["Global`f"])], next_id := 3 }

theorem Dict.find?_insert {α : Type} (d : Dict α) (k k' : String) (v : α) :
    Dict.find? (Dict.insert d k v) k' =
      if k = k' then some v else Dict.find? d k' := by
  induction d with
  | nil => simp [Dict.insert, Dict.find?]
  | cons kv rest ih =>
    by_cases h1 : kv.1 = k
    · by_cases h2 : k = k' <;> simp_all [Dict.insert, Dict.find?]
    · by_cases h2 : kv.1 = k' <;> by_cases h3 : k = k' <;>
        simp_all [Dict.insert, Dict.find?]

theorem Dict.find?_eq_none_of_not_mem {α : Type} (d : Dict α) (k : String)
    (h : k ∉ d.map Prod.fst) : Dict.find? d k = none := by
  induction d with
  | nil => simp [Dict.find?]
  | cons kv rest ih =>
    simp only [List.map_cons, List.mem_cons, not_or] at h
    have hne : ¬ kv.1 = k := fun he => h.1 he.symm
    simp [Dict.find?, hne, ih h.2]

theorem Dict.find?_erase_self {α : Type} (d : Dict α) (k : String)
    (hnd : (d.map Prod.fst).Nodup) : Dict.find? (Dict.erase d k) k = none := by
  induction d with
  | nil => simp [Dict.erase, Dict.find?]
  | cons kv rest ih =>
    simp only [List.map_cons, List.nodup_cons] at hnd
    by_cases h1 : kv.1 = k
    · subst h1
      simp [Dict.erase, Dict.find?_eq_none_of_not_mem rest kv.1 hnd.1]
    · simp [Dict.erase, h1, Dict.find?, ih hnd.2]

theorem Dict.find?_erase_of_none {α : Type} (d : Dict α) (k k' : String)
    (h : Dict.find? d k = none) : Dict.find? (Dict.erase d k') k = none := by
  induction d with
  | nil => simp [Dict.erase, Dict.find?]
  | cons kv rest ih =>
    simp only [Dict.find?] at h
    by_cases h1 : kv.1 = k
    · simp [h1] at h
    · simp only [if_neg h1] at h
      by_cases h2 : kv.1 = k'
      · simpa [Dict.erase, h2] using h
      · simp [Dict.erase, h2, Dict.find?, h1, ih h]

theorem Dict.keys_erase_sublist {α : Type} (d : Dict α) (k : String) :
    ((Dict.erase d k).map Prod.fst).Sublist (d.map Prod.fst) := by
  induction d with
  | nil => simp [Dict.erase]
  | cons kv rest ih =>
    by_cases h1 : kv.1 = k
    · simp only [Dict.erase, if_pos h1, List.map_cons]
      exact (List.sublist_cons_self _ _)
    · simp only [Dict.erase, if_neg h1, List.map_cons]
      exact ih.cons₂ _

theorem Dict.nodup_keys_erase {α : Type} (d : Dict α) (k : String)
    (hnd : (d.map Prod.fst).Nodup) : ((Dict.erase d k).map Prod.fst).Nodup :=
  (Dict.keys_erase_sublist d k).nodup hnd

theorem Dict.find?_foldl_erase_of_none {α : Type} (ks : List String)
    (d : Dict α) (k : String) (h : Dict.find? d k = none) :
    Dict.find? (ks.foldl (fun d' k' => Dict.erase d' k') d) k = none := by
  induction ks generalizing d with
  | nil => simpa using h
  | cons k1 rest ih => exact ih _ (Dict.find?_erase_of_none d k k1 h)

theorem Dict.find?_foldl_erase_of_mem {α : Type} :
    ∀ (ks : List String) (d : Dict α) (k : String), k ∈ ks →
      (d.map Prod.fst).Nodup →
      Dict.find? (ks.foldl (fun d' k' => Dict.erase d' k') d) k = none
  | [], _, _, hk, _ => absurd hk (by simp)
  | k1 :: rest, d, k, hk, hnd => by
    by_cases h1 : k1 = k
    · subst h1
      exact Dict.find?_foldl_erase_of_none rest _ k1
        (Dict.find?_erase_self d k1 hnd)
    · have h : k ∈ rest := by
        rcases List.mem_cons.1 hk with h | h
        · exact absurd h.symm h1
        · exact h
      exact Dict.find?_foldl_erase_of_mem rest _ k h
        (Dict.nodup_keys_erase d k1 hnd)

theorem Dict.find?_updateAll {α : Type} (d src : Dict α) (k : String)
    (hnd : (src.map Prod.fst).Nodup) :
    Dict.find? (Dict.updateAll d src) k = orO (Dict.find? src k) (Dict.find? d k) := by
  induction src generalizing d with
  | nil => simp [Dict.updateAll, Dict.find?, orO]
  | cons kv rest ih =>
    simp only [List.map_cons, List.nodup_cons] at hnd
    have step : Dict.updateAll d (kv :: rest) = Dict.updateAll (Dict.insert d kv.1 kv.2) rest := by
      simp [Dict.updateAll]
    rw [step, ih _ hnd.2]
    by_cases h1 : kv.1 = k
    · subst h1
      rw [Dict.find?_eq_none_of_not_mem rest kv.1 hnd.1]
      simp [orO, Dict.find?, Dict.find?_insert]
    · simp only [Dict.find?, if_neg h1]
      rw [Dict.find?_insert, if_neg h1]

theorem insort_left_eq_takeDrop (l : List Rule) (r : Rule) :
    insort_left l r
      = l.takeWhile (fun v => v.key < r.key) ++ r :: l.dropWhile (fun v => v.key < r.key) := by
  induction l with
  | nil => simp [insort_left]
  | cons v vs ih =>
    by_cases h : r.key ≤ v.key
    · have : ¬ v.key < r.key := Nat.not_lt.2 h
      simp [insort_left, h, List.takeWhile_cons, List.dropWhile_cons, this]
    · have hlt : v.key < r.key := Nat.lt_of_not_le h
      simp [insort_left, h, List.takeWhile_cons, List.dropWhile_cons, hlt, ih]

theorem length_insort_left (l : List Rule) (r : Rule) :
    (insort_left l r).length = l.length + 1 := by
  induction l with
  | nil => simp [insort_left]
  | cons v vs ih =>
    by_cases h : r.key ≤ v.key <;> simp [insort_left, h, ih]

theorem length_removeSameQ_of_mem (values : List Rule) (pat : Expr)
    (h : ∃ v ∈ values, v.pattern.sameQ pat = true) :
    (removeSameQ values pat).length + 1 = values.length := by
  induction values with
  | nil => simp at h
  | cons v vs ih =>
    by_cases h1 : v.pattern.sameQ pat = true
    · simp [removeSameQ, h1]
    · rcases h with ⟨w, hw, hsq⟩
      rcases List.mem_cons.1 hw with he | hm
      · exact absurd (he ▸ hsq) h1
      · rw [removeSameQ, if_neg h1]
        simp only [List.length_cons, ih ⟨w, hm, hsq⟩]

theorem removeFirstRule_eq_none (values : List Rule) (lhs : Expr)
    (h : ∀ v ∈ values, v.pattern.sameQ lhs = false) :
    removeFirstRule values lhs = none := by
  induction values with
  | nil => rfl
  | cons v vs ih =>
    have h1 := h v (by simp)
    simp only [removeFirstRule, h1]
    simp [ih (fun w hw => h w (List.mem_cons_of_mem v hw))]

theorem get_values_list_mkEmpty (i : Nat) (n : String) (a : Nat) (b : Bool)
    (pos : String) :
    (Definition.mkEmpty i n a b).get_values_list pos = [] := by
  unfold Definition.get_values_list Definition.mkEmpty
  split_ifs <;> rfl

theorem remove_rule_mkEmpty (i : Nat) (n : String) (a : Nat) (b : Bool)
    (lhs : Expr) :
    (Definition.mkEmpty i n a b).remove_rule lhs
      = (false, Definition.mkEmpty i n a b) := by
  cases hpos : get_tag_position lhs (Definition.mkEmpty i n a b).name with
  | none => simp [Definition.remove_rule, hpos]
  | some pos =>
    simp [Definition.remove_rule, hpos, get_values_list_mkEmpty, removeFirstRule]

theorem Expr.get_name_expr (h : Expr) (elems : List Expr) :
    (Expr.expr h elems).get_name = "" := rfl

/-- C2: the rule classifier decides the category by first-match priority:
the bare symbol is an own-value; other atoms have no category; a pattern
headed by the symbol is a down-value regardless of its arguments; the
numeric wrapper applied to exactly two arguments is an n-value; the
conditional wrapper with at least one argument classifies as its first
argument; otherwise a matching lookup name gives a sub-value, a matching
lookup name of a direct argument gives an up-value, and anything else has
no category. -/
theorem get_tag_position_spec :
    (∀ s : String, get_tag_position (Expr.sym s) s = some "own")
    ∧ (∀ (p : Expr) (s : String), p.isAtom = true → p.get_name ≠ s →
        get_tag_position p s = none)
    ∧ (∀ (h : Expr) (elems : List Expr) (s : String), s ≠ "" →
        h.get_name = s → get_tag_position (Expr.expr h elems) s = some "down")
    ∧ (∀ (h : Expr) (elems : List Expr) (s : String), s ≠ "" →
        h.get_name ≠ s → h.get_name = "System`N" → elems.length = 2 →
        get_tag_position (Expr.expr h elems) s = some "n")
    ∧ (∀ (h : Expr) (e : Expr) (rest : List Expr) (s : String), s ≠ "" →
        h.get_name ≠ s → ¬(h.get_name = "System`N" ∧ (e :: rest).length = 2) →
        h.get_name = "System`Condition" →
        get_tag_position (Expr.expr h (e :: rest)) s = get_tag_position e s)
    ∧ (∀ (h : Expr) (elems : List Expr) (s : String), s ≠ "" →
        h.get_name ≠ s → ¬(h.get_name = "System`N" ∧ elems.length = 2) →
        ¬(h.get_name = "System`Condition" ∧ 0 < elems.length) →
        h.get_lookup_name = s →
        get_tag_position (Expr.expr h elems) s = some "sub")
    ∧ (∀ (h : Expr) (elems : List Expr) (s : String), s ≠ "" →
        h.get_name ≠ s → ¬(h.get_name = "System`N" ∧ elems.length = 2) →
        ¬(h.get_name = "System`Condition" ∧ 0 < elems.length) →
        h.get_lookup_name ≠ s →
        elems.any (fun e => e.get_lookup_name == s) = true →
        get_tag_position (Expr.expr h elems) s = some "up")
    ∧ (∀ (h : Expr) (elems : List Expr) (s : String), s ≠ "" →
        h.get_name ≠ s → ¬(h.get_name = "System`N" ∧ elems.length = 2) →
        ¬(h.get_name = "System`Condition" ∧ 0 < elems.length) →
        h.get_lookup_name ≠ s →
        elems.any (fun e => e.get_lookup_name == s) = false →
        get_tag_position (Expr.expr h elems) s = none) := by
  refine ⟨?_, ?_, ?_, ?_, ?_, ?_, ?_, ?_⟩
  · intro s
    simp [get_tag_position, Expr.get_name]
  · intro p s hatom hname
    cases p <;> simp_all [get_tag_position, Expr.get_name, Expr.isAtom]
  · intro h elems s hs hname
    rw [get_tag_position.eq_def, Expr.get_name_expr, if_neg (Ne.symm hs)]
    simp only []
    rw [if_pos hname]
  · intro h elems s hs hname hN hlen
    rw [get_tag_position.eq_def, Expr.get_name_expr, if_neg (Ne.symm hs)]
    simp only []
    rw [if_neg hname, if_pos ⟨hN, hlen⟩]
  · intro h e rest s hs hname hN hC
    rw [get_tag_position.eq_def, Expr.get_name_expr, if_neg (Ne.symm hs)]
    simp only []
    rw [if_neg hname, if_neg hN, if_pos ⟨hC, by simp⟩]
  · intro h elems s hs hname hN hC hlook
    rw [get_tag_position.eq_def, Expr.get_name_expr, if_neg (Ne.symm hs)]
    simp only []
    rw [if_neg hname, if_neg hN, if_neg hC, if_pos hlook]
  · intro h elems s hs hname hN hC hlookne hany
    rw [get_tag_position.eq_def, Expr.get_name_expr, if_neg (Ne.symm hs)]
    simp only []
    rw [if_neg hname, if_neg hN, if_neg hC, if_neg hlookne, if_pos hany]
  · intro h elems s hs hname hN hC hlookne hany
    rw [get_tag_position.eq_def, Expr.get_name_expr, if_neg (Ne.symm hs)]
    simp only []
    rw [if_neg hname, if_neg hN, if_neg hC, if_neg hlookne,
      if_neg (by simp [hany])]

/-- Witness for C2: `f[x_]` against `f` is a down-value, bare `f` an
own-value, `f[x_] /; x > 0` a down-value through the transparent condition
wrapper, plus one instance of each remaining clause. -/
theorem get_tag_position_spec_witness :
    get_tag_position (Expr.sym "Global`f") "Global`f" = some "own"
    ∧ get_tag_position (Expr.atom "System`Integer") "Global`f" = none
    ∧ get_tag_position fOfX "Global`f" = some "down"
    ∧ get_tag_position
        (Expr.expr (Expr.sym "System`N") [fOfX, Expr.sym "Global`p"]) "Global`f"
        = some "n"
    ∧ get_tag_position fOfXCond "Global`f" = get_tag_position fOfX "Global`f"
    ∧ get_tag_position fOfXOfX "Global`f" = some "sub"
    ∧ get_tag_position gOfF "Global`f" = some "up"
    ∧ get_tag_position gOfH "Global`f" = none := by
  refine ⟨get_tag_position_spec.1 "Global`f",
    get_tag_position_spec.2.1 _ "Global`f" rfl (by decide),
    get_tag_position_spec.2.2.1 _ [blankX] "Global`f" (by decide) rfl,
    get_tag_position_spec.2.2.2.1 _ _ "Global`f" (by decide) (by decide) rfl rfl,
    get_tag_position_spec.2.2.2.2.1 _ fOfX
      [Expr.expr (Expr.sym "System`Greater")
        [Expr.sym "Global`x", Expr.atom "System`Integer"]]
      "Global`f" (by decide) (by decide) (by decide) rfl,
    get_tag_position_spec.2.2.2.2.2.1 fOfX [blankX] "Global`f" (by decide)
      (by decide) (by decide) (by decide) rfl,
    get_tag_position_spec.2.2.2.2.2.2.1 _ [Expr.sym "Global`f"] "Global`f"
      (by decide) (by decide) (by decide) (by decide) (by decide) (by decide),
    get_tag_position_spec.2.2.2.2.2.2.2 _ [Expr.sym "Global`h"] "Global`f"
      (by decide) (by decide) (by decide) (by decide) (by decide) (by decide)⟩

/-- C3: `insert_rule` removes any rule with a `sameQ`-identical pattern and
then inserts at the leftmost position among equal-precedence peers: two
equal-precedence rules inserted in order `r1`, `r2` end up as `[r2, r1]`; a
pattern-duplicate insertion keeps the category length unchanged; and in
general the inserted rule lands exactly after the strictly-lower-key
prefix of the deduplicated list, before every equal-key peer. -/
theorem insert_rule_spec :
    (∀ r1 r2 : Rule, r1.key = r2.key → r1.pattern.sameQ r2.pattern = false →
      insert_rule (insert_rule [] r1) r2 = [r2, r1])
    ∧ (∀ (values : List Rule) (rule : Rule),
        (∃ v ∈ values, v.pattern.sameQ rule.pattern = true) →
        (insert_rule values rule).length = values.length)
    ∧ (∀ (values : List Rule) (rule : Rule),
        insert_rule values rule
          = (removeSameQ values rule.pattern).takeWhile (fun v => v.key < rule.key)
            ++ rule :: (removeSameQ values rule.pattern).dropWhile
                (fun v => v.key < rule.key)) := by
  refine ⟨?_, ?_, ?_⟩
  · intro r1 r2 hkey hpat
    have h1 : insert_rule [] r1 = [r1] := rfl
    rw [h1]
    show insort_left (removeSameQ [r1] r2.pattern) r2 = [r2, r1]
    rw [removeSameQ, if_neg (by simp [hpat]), removeSameQ]
    show insort_left [r1] r2 = [r2, r1]
    rw [insort_left, if_pos (Nat.le_of_eq hkey.symm)]
  · intro values rule h
    show (insort_left (removeSameQ values rule.pattern) rule).length = values.length
    rw [length_insort_left, length_removeSameQ_of_mem values rule.pattern h]
  · intro values rule
    exact insort_left_eq_takeDrop _ _

/-- Witness for C3: with two distinct equal-precedence rules the second
insertion lands first, and re-inserting a rule with a duplicate pattern
keeps the singleton list length 1. -/
theorem insert_rule_spec_witness :
    insert_rule (insert_rule [] (mkRule 5 (Expr.sym "Global`a")))
        (mkRule 5 (Expr.sym "Global`b"))
      = [mkRule 5 (Expr.sym "Global`b"), mkRule 5 (Expr.sym "Global`a")]
    ∧ (insert_rule [mkRule 3 (Expr.sym "Global`a")]
        (mkRule 7 (Expr.sym "Global`a"))).length = 1 := by
  refine ⟨insert_rule_spec.1 (mkRule 5 (Expr.sym "Global`a"))
      (mkRule 5 (Expr.sym "Global`b")) rfl (by decide),
    insert_rule_spec.2.1 [mkRule 3 (Expr.sym "Global`a")]
      (mkRule 7 (Expr.sym "Global`a"))
      ⟨mkRule 3 (Expr.sym "Global`a"), by simp, by decide⟩⟩

/-- C9: `Definition.add_rule` returns `false` (without raising — the
embedding is total) when the pattern classifies into no category, and
`Definition.remove_rule` returns `false` when the pattern is
unclassifiable or when no `sameQ`-identical rule exists in the classified
category; in both cases the definition is untouched. -/
theorem add_remove_rule_false_spec :
    (∀ (d : Definition) (r : Rule), get_tag_position r.pattern d.name = none →
      d.add_rule r = (false, d))
    ∧ (∀ (d : Definition) (lhs : Expr), get_tag_position lhs d.name = none →
      d.remove_rule lhs = (false, d))
    ∧ (∀ (d : Definition) (lhs : Expr) (pos : String),
        get_tag_position lhs d.name = some pos →
        (∀ v ∈ d.get_values_list pos, v.pattern.sameQ lhs = false) →
        d.remove_rule lhs = (false, d)) := by
  refine ⟨?_, ?_, ?_⟩
  · intro d r h
    simp [Definition.add_rule, h]
  · intro d lhs h
    simp [Definition.remove_rule, h]
  · intro d lhs pos hpos hnone
    simp [Definition.remove_rule, hpos,
      removeFirstRule_eq_none (d.get_values_list pos) lhs hnone]

/-- Witness for C9: adding a rule whose pattern is a bare integer atom to a
definition of `f` fails with `false`, as does removing the never-added
down-value pattern `f[x_]`. -/
theorem add_remove_rule_false_spec_witness :
    (Definition.mkEmpty 0 "Global`f" 0 false).add_rule
        (mkRule 1 (Expr.atom "System`Integer")) =
      (false, Definition.mkEmpty 0 "Global`f" 0 false)
    ∧ (Definition.mkEmpty 0 "Global`f" 0 false).remove_rule fOfX =
      (false, Definition.mkEmpty 0 "Global`f" 0 false) := by
  refine ⟨add_remove_rule_false_spec.1 _ (mkRule 1 (Expr.atom "System`Integer"))
      (by decide),
    add_remove_rule_false_spec.2.2 _ fOfX "down" (by decide) ?_⟩
  intro v hv
  rw [get_values_list_mkEmpty] at hv
  cases hv

/-- C4: with builtin definitions for both the system-context and the
global-context `x`, current context the global one and the context path
listing the system context first, `lookup_name` on the short name `x`
resolves to the system-context symbol: the search loop alone decides, the
current-context probe the docstring promises is skipped (it is commented
out in the source), so the symbol existing under the current context is
not preferred. -/
theorem lookup_name_skips_current_context :
    (stC4.lookup_name "x").1 = "System`x"
    ∧ (Dict.find? stC4.builtin "Global`x").isSome = true
    ∧ stC4.current_context = "Global`" := by
  exact ⟨rfl, rfl, rfl⟩

/-- C7: merging a builtin and a user definition that both carry a format
rule under the same form name extends the builtin definition's own format
list in place through the aliased list object: after `get_definition` the
builtin namespace entry's `F` bucket has grown from `[rF1]` to
`[rF1, rF2]` — the contributing source is not left unchanged. -/
theorem get_definition_mutates_builtin_formatvalues :
    Dict.find? dBf.formatvalues "F" = some [rF1]
    ∧ ((Dict.find? ((stC7.get_definition "Global`f" false).2.builtin) "Global`f").map
        (fun d => Dict.find? d.formatvalues "F")) = some (some [rF1, rF2]) := by
  exact ⟨rfl, rfl⟩

/-- Counterexample to C6 as stated: for a symbol defined in a single
namespace, `clear_cache(name)` followed by `get_definition(name)` returns
exactly the `Definition` object (same allocation identity, same contents)
that was cached strictly before the invalidation — the fast path hands
back the namespace's own entry rather than a fresh object. -/
theorem invalidate_single_source_same_definition :
    Dict.find? stC6.definitions_cache "Global`f" = some dBf
    ∧ ((stC6.clear_cache (some "Global`f")).get_definition "Global`f" false).1
        = some dBf := by
  exact ⟨rfl, rfl⟩

/-- Counterexample to C5 as stated: `set_attribute` ends with
`clear_definitions_cache`, not with the two-cache `clear_cache(name)`
eviction the claim describes — the resolved-name cache entry survives the
mutation (while a genuine `clear_cache(name)` would have removed it, and
the merged-definition cache entry is indeed evicted). -/
theorem set_attribute_keeps_lookup_cache :
    Dict.find? (stC5.set_attribute "Global`f" 1).lookup_cache "Global`f"
        = some "Global`f"
    ∧ Dict.find? (stC5.clear_cache (some "Global`f")).lookup_cache "Global`f"
        = none
    ∧ Dict.find? (stC5.set_attribute "Global`f" 1).definitions_cache "Global`f"
        = none := by
  exact ⟨rfl, rfl, rfl⟩

/-- Counterexample to C8 as stated: after `get_definition` has resolved and
cached the short name `x` to the global-context symbol, auto-vivifying the
system-context `x` (which precedes it in the search path) through
`get_definition` leaves the stale resolution in the lookup cache — a
cached resolution survives the appearance of a candidate-context symbol
that changes it, because the auto-vivify path performs no invalidation. -/
theorem autovivify_leaves_stale_lookup_cache :
    Dict.find? stC8b.lookup_cache "x" = some "Global`x"
    ∧ (Dict.find? stC8b.user "System`x").isSome = true
    ∧ (Definitions.lookup_name { stC8b with lookup_cache := [] } "x").1
        = "System`x" := by
  exact ⟨rfl, rfl, rfl⟩

theorem orO_none {α : Type} (a : Option α) : orO a none = a := by
  cases a <;> rfl

theorem merge_three_aux (st : Definitions) (name : String) (u p b : Definition)
    (hc : Dict.find? st.definitions_cache name = none)
    (hlk : Dict.find? st.lookup_cache name = none)
    (hfq : fully_qualified_symbol_name name = true)
    (hu : Dict.find? st.user name = some u)
    (hp : Dict.find? st.pymathics name = some p)
    (hb : Dict.find? st.builtin name = some b)
    (hnu : (u.options.map Prod.fst).Nodup)
    (hnp : (p.options.map Prod.fst).Nodup)
    (hnb : (b.options.map Prod.fst).Nodup) :
    ∃ r : Definition,
      (st.get_definition name false).1 = some r
      ∧ r.id = st.next_id
      ∧ r.ownvalues = u.ownvalues ++ p.ownvalues ++ b.ownvalues
      ∧ r.downvalues = u.downvalues ++ p.downvalues ++ b.downvalues
      ∧ r.subvalues = u.subvalues ++ p.subvalues ++ b.subvalues
      ∧ r.upvalues = u.upvalues ++ p.upvalues ++ b.upvalues
      ∧ r.nvalues = u.nvalues ++ p.nvalues ++ b.nvalues
      ∧ r.defaultvalues = u.defaultvalues ++ p.defaultvalues ++ b.defaultvalues
      ∧ r.messages = u.messages ++ p.messages ++ b.messages
      ∧ r.attributes = u.attributes
      ∧ r.is_numeric = u.is_numeric
      ∧ (∀ k : String, Dict.find? r.options k
          = orO (Dict.find? u.options k)
              (orO (Dict.find? p.options k) (Dict.find? b.options k))) := by
  simp only [Definitions.get_definition, Definitions.lookup_name, hc, hlk, hfq,
    if_true, getDefinitionResolved, hu, hp, hb, Option.toList]
  refine ⟨_, rfl, rfl, by simp, by simp, by simp, by simp, by simp, by simp,
    by simp, rfl, rfl, ?_⟩
  intro k
  show Dict.find?
    (Dict.updateAll (Dict.updateAll (Dict.updateAll [] b.options) p.options)
      u.options) k = _
  rw [Dict.find?_updateAll _ _ k hnu, Dict.find?_updateAll _ _ k hnp,
    Dict.find?_updateAll _ _ k hnb]
  simp [Dict.find?, orO_none]

theorem merge_two_aux (st : Definitions) (name : String) (u b : Definition)
    (hc : Dict.find? st.definitions_cache name = none)
    (hlk : Dict.find? st.lookup_cache name = none)
    (hfq : fully_qualified_symbol_name name = true)
    (hu : Dict.find? st.user name = some u)
    (hp : Dict.find? st.pymathics name = none)
    (hb : Dict.find? st.builtin name = some b)
    (hnu : (u.options.map Prod.fst).Nodup)
    (hnb : (b.options.map Prod.fst).Nodup) :
    ∃ r : Definition,
      (st.get_definition name false).1 = some r
      ∧ r.id = st.next_id
      ∧ r.downvalues = u.downvalues ++ b.downvalues
      ∧ r.attributes = u.attributes
      ∧ r.is_numeric = u.is_numeric
      ∧ (∀ k : String, Dict.find? r.options k
          = orO (Dict.find? u.options k) (Dict.find? b.options k)) := by
  simp only [Definitions.get_definition, Definitions.lookup_name, hc, hlk, hfq,
    if_true, getDefinitionResolved, hu, hp, hb, Option.toList]
  refine ⟨_, rfl, rfl, by simp, rfl, rfl, ?_⟩
  intro k
  show Dict.find? (Dict.updateAll (Dict.updateAll [] b.options) u.options) k = _
  rw [Dict.find?_updateAll _ _ k hnu, Dict.find?_updateAll _ _ k hnb]
  simp [Dict.find?, orO_none]

theorem merge_user_pym_aux (st : Definitions) (name : String) (u p : Definition)
    (hc : Dict.find? st.definitions_cache name = none)
    (hlk : Dict.find? st.lookup_cache name = none)
    (hfq : fully_qualified_symbol_name name = true)
    (hu : Dict.find? st.user name = some u)
    (hp : Dict.find? st.pymathics name = some p)
    (hb : Dict.find? st.builtin name = none)
    (hnu : (u.options.map Prod.fst).Nodup)
    (hnp : (p.options.map Prod.fst).Nodup) :
    ∃ r : Definition,
      (st.get_definition name false).1 = some r
      ∧ r.id = st.next_id
      ∧ r.downvalues = u.downvalues ++ p.downvalues
      ∧ r.attributes = u.attributes
      ∧ r.is_numeric = u.is_numeric
      ∧ (∀ k : String, Dict.find? r.options k
          = orO (Dict.find? u.options k) (Dict.find? p.options k)) := by
  simp only [Definitions.get_definition, Definitions.lookup_name, hc, hlk, hfq,
    if_true, getDefinitionResolved, hu, hp, hb, Option.toList]
  refine ⟨_, rfl, rfl, by simp, rfl, rfl, ?_⟩
  intro k
  show Dict.find? (Dict.updateAll (Dict.updateAll [] p.options) u.options) k = _
  rw [Dict.find?_updateAll _ _ k hnu, Dict.find?_updateAll _ _ k hnp]
  simp [Dict.find?, orO_none]

theorem merge_pym_builtin_aux (st : Definitions) (name : String)
    (p b : Definition)
    (hc : Dict.find? st.definitions_cache name = none)
    (hlk : Dict.find? st.lookup_cache name = none)
    (hfq : fully_qualified_symbol_name name = true)
    (hu : Dict.find? st.user name = none)
    (hp : Dict.find? st.pymathics name = some p)
    (hb : Dict.find? st.builtin name = some b)
    (hnp : (p.options.map Prod.fst).Nodup)
    (hnb : (b.options.map Prod.fst).Nodup) :
    ∃ r : Definition,
      (st.get_definition name false).1 = some r
      ∧ r.id = st.next_id
      ∧ r.downvalues = p.downvalues ++ b.downvalues
      ∧ r.attributes = p.attributes
      ∧ r.is_numeric = p.is_numeric
      ∧ (∀ k : String, Dict.find? r.options k
          = orO (Dict.find? p.options k) (Dict.find? b.options k)) := by
  simp only [Definitions.get_definition, Definitions.lookup_name, hc, hlk, hfq,
    if_true, getDefinitionResolved, hu, hp, hb, Option.toList]
  refine ⟨_, rfl, rfl, by simp, rfl, rfl, ?_⟩
  intro k
  show Dict.find? (Dict.updateAll (Dict.updateAll [] b.options) p.options) k = _
  rw [Dict.find?_updateAll _ _ k hnp, Dict.find?_updateAll _ _ k hnb]
  simp [Dict.find?, orO_none]

/-- C1: when a symbol has definitions in two or more namespaces,
`get_definition` synthesizes a fresh merged `Definition` whose rule-list
categories are the concatenations in the order user, then pymathics, then
builtin (user rules ahead of builtin rules of equal precedence), whose
attributes and numeric flag come from the highest-priority present source
in the order user > pymathics > builtin, and whose options are folded from
lowest to highest priority so that a higher-priority source's value wins
on key conflict — proved for all three two-namespace combinations and for
the three-namespace case. -/
theorem get_definition_merge_spec :
    (∀ (st : Definitions) (name : String) (u p b : Definition),
      Dict.find? st.definitions_cache name = none →
      Dict.find? st.lookup_cache name = none →
      fully_qualified_symbol_name name = true →
      Dict.find? st.user name = some u →
      Dict.find? st.pymathics name = some p →
      Dict.find? st.builtin name = some b →
      (u.options.map Prod.fst).Nodup →
      (p.options.map Prod.fst).Nodup →
      (b.options.map Prod.fst).Nodup →
      ∃ r : Definition,
        (st.get_definition name false).1 = some r
        ∧ r.id = st.next_id
        ∧ r.ownvalues = u.ownvalues ++ p.ownvalues ++ b.ownvalues
        ∧ r.downvalues = u.downvalues ++ p.downvalues ++ b.downvalues
        ∧ r.subvalues = u.subvalues ++ p.subvalues ++ b.subvalues
        ∧ r.upvalues = u.upvalues ++ p.upvalues ++ b.upvalues
        ∧ r.nvalues = u.nvalues ++ p.nvalues ++ b.nvalues
        ∧ r.defaultvalues = u.defaultvalues ++ p.defaultvalues ++ b.defaultvalues
        ∧ r.messages = u.messages ++ p.messages ++ b.messages
        ∧ r.attributes = u.attributes
        ∧ r.is_numeric = u.is_numeric
        ∧ (∀ k : String, Dict.find? r.options k
            = orO (Dict.find? u.options k)
                (orO (Dict.find? p.options k) (Dict.find? b.options k))))
    ∧ (∀ (st : Definitions) (name : String) (u b : Definition),
      Dict.find? st.definitions_cache name = none →
      Dict.find? st.lookup_cache name = none →
      fully_qualified_symbol_name name = true →
      Dict.find? st.user name = some u →
      Dict.find? st.pymathics name = none →
      Dict.find? st.builtin name = some b →
      (u.options.map Prod.fst).Nodup →
      (b.options.map Prod.fst).Nodup →
      ∃ r : Definition,
        (st.get_definition name false).1 = some r
        ∧ r.id = st.next_id
        ∧ r.downvalues = u.downvalues ++ b.downvalues
        ∧ r.attributes = u.attributes
        ∧ r.is_numeric = u.is_numeric
        ∧ (∀ k : String, Dict.find? r.options k
            = orO (Dict.find? u.options k) (Dict.find? b.options k)))
    ∧ (∀ (st : Definitions) (name : String) (u p : Definition),
      Dict.find? st.definitions_cache name = none →
      Dict.find? st.lookup_cache name = none →
      fully_qualified_symbol_name name = true →
      Dict.find? st.user name = some u →
      Dict.find? st.pymathics name = some p →
      Dict.find? st.builtin name = none →
      (u.options.map Prod.fst).Nodup →
      (p.options.map Prod.fst).Nodup →
      ∃ r : Definition,
        (st.get_definition name false).1 = some r
        ∧ r.id = st.next_id
        ∧ r.downvalues = u.downvalues ++ p.downvalues
        ∧ r.attributes = u.attributes
        ∧ r.is_numeric = u.is_numeric
        ∧ (∀ k : String, Dict.find? r.options k
            = orO (Dict.find? u.options k) (Dict.find? p.options k)))
    ∧ (∀ (st : Definitions) (name : String) (p b : Definition),
      Dict.find? st.definitions_cache name = none →
      Dict.find? st.lookup_cache name = none →
      fully_qualified_symbol_name name = true →
      Dict.find? st.user name = none →
      Dict.find? st.pymathics name = some p →
      Dict.find? st.builtin name = some b →
      (p.options.map Prod.fst).Nodup →
      (b.options.map Prod.fst).Nodup →
      ∃ r : Definition,
        (st.get_definition name false).1 = some r
        ∧ r.id = st.next_id
        ∧ r.downvalues = p.downvalues ++ b.downvalues
        ∧ r.attributes = p.attributes
        ∧ r.is_numeric = p.is_numeric
        ∧ (∀ k : String, Dict.find? r.options k
            = orO (Dict.find? p.options k) (Dict.find? b.options k))) := by
  exact ⟨merge_three_aux, merge_two_aux, merge_user_pym_aux, merge_pym_builtin_aux⟩

/-- Witness for C1: in the concrete three-namespace state the merged
down-values are the user rule, then the pymathics rule, then the builtin
rule; attributes come from the user source; the conflicting option key
resolves to the user's value while the builtin-only key survives.  The
user+builtin state shows the user rule ordered ahead of the
equal-precedence builtin rule; the user+pymathics state again takes the
user's attributes; and the pymathics+builtin state takes the pymathics
attributes and numeric flag over the builtin's, with the builtin's options
surviving the fold. -/
theorem get_definition_merge_spec_witness :
    ((stC1.get_definition "Global`f" false).1.map (fun r => r.downvalues))
      = some [mkRule 5 (Expr.sym "Global`d2"), mkRule 5 (Expr.sym "Global`dp"),
              mkRule 5 (Expr.sym "Global`d1")]
    ∧ ((stC1.get_definition "Global`f" false).1.map (fun r => r.attributes))
      = some 3
    ∧ ((stC1.get_definition "Global`f" false).1.map
        (fun r => Dict.find? r.options "Global`opt"))
      = some (some (Expr.sym "Global`fromUser"))
    ∧ ((stC1.get_definition "Global`f" false).1.map
        (fun r => Dict.find? r.options "Global`only"))
      = some (some (Expr.sym "Global`builtinOnly"))
    ∧ ((stC1b.get_definition "Global`f" false).1.map (fun r => r.downvalues))
      = some [mkRule 5 (Expr.sym "Global`d2"), mkRule 5 (Expr.sym "Global`d1")]
    ∧ ((stC1up.get_definition "Global`f" false).1.map (fun r => r.downvalues))
      = some [mkRule 5 (Expr.sym "Global`d2"), mkRule 5 (Expr.sym "Global`dp")]
    ∧ ((stC1up.get_definition "Global`f" false).1.map (fun r => r.attributes))
      = some 3
    ∧ ((stC1pb.get_definition "Global`f" false).1.map (fun r => r.downvalues))
      = some [mkRule 5 (Expr.sym "Global`dp"), mkRule 5 (Expr.sym "Global`d1")]
    ∧ ((stC1pb.get_definition "Global`f" false).1.map (fun r => r.attributes))
      = some 5
    ∧ ((stC1pb.get_definition "Global`f" false).1.map
        (fun r => Dict.find? r.options "Global`opt"))
      = some (some (Expr.sym "Global`fromBuiltin")) := by
  obtain ⟨r, hr, _, _, hdown, _, _, _, _, _, hattr, _, hopt⟩ :=
    get_definition_merge_spec.1 stC1 "Global`f" dMu dMp dMb rfl rfl rfl rfl rfl
      rfl (by decide) (by decide) (by decide)
  obtain ⟨r2, hr2, _, hdown2, _, _, _⟩ :=
    get_definition_merge_spec.2.1 stC1b "Global`f" dMu dMb rfl rfl rfl rfl rfl
      rfl (by decide) (by decide)
  obtain ⟨r3, hr3, _, hdown3, hattr3, _, _⟩ :=
    get_definition_merge_spec.2.2.1 stC1up "Global`f" dMu dMp rfl rfl rfl rfl
      rfl rfl (by decide) (by decide)
  obtain ⟨r4, hr4, _, hdown4, hattr4, _, hopt4⟩ :=
    get_definition_merge_spec.2.2.2 stC1pb "Global`f" dMp dMb rfl rfl rfl rfl
      rfl rfl (by decide) (by decide)
  refine ⟨?_, ?_, ?_, ?_, ?_, ?_, ?_, ?_, ?_, ?_⟩
  · rw [hr]
    simp only [Option.map_some']
    rw [hdown]
    rfl
  · rw [hr]
    simp only [Option.map_some']
    rw [hattr]
    rfl
  · rw [hr]
    simp only [Option.map_some']
    rw [hopt "Global`opt"]
    rfl
  · rw [hr]
    simp only [Option.map_some']
    rw [hopt "Global`only"]
    rfl
  · rw [hr2]
    simp only [Option.map_some']
    rw [hdown2]
    rfl
  · rw [hr3]
    simp only [Option.map_some']
    rw [hdown3]
    rfl
  · rw [hr3]
    simp only [Option.map_some']
    rw [hattr3]
    rfl
  · rw [hr4]
    simp only [Option.map_some']
    rw [hdown4]
    rfl
  · rw [hr4]
    simp only [Option.map_some']
    rw [hattr4]
    rfl
  · rw [hr4]
    simp only [Option.map_some']
    rw [hopt4 "Global`opt"]
    rfl

/-- C6 (amended): for a symbol present in more than one namespace,
`clear_cache(name)` genuinely evicts the cached entry and the following
`get_definition` synthesizes a definition allocated fresh — its identity
differs from every previously allocated object, in particular from the one
cached strictly before the invalidation.  (For single-namespace symbols
the fast path returns the namespace's own object again, which is why the
claim is restricted to merged, multi-source definitions.) -/
theorem invalidate_then_get_definition_fresh (st : Definitions) (name : String)
    (dOld u b : Definition)
    (hcache : Dict.find? st.definitions_cache name = some dOld)
    (hidlt : dOld.id < st.next_id)
    (hfq : fully_qualified_symbol_name name = true)
    (hk : name ∈ (Dict.find? st.proxy (strip_context name)).getD [])
    (hndD : (st.definitions_cache.map Prod.fst).Nodup)
    (hndL : (st.lookup_cache.map Prod.fst).Nodup)
    (hu : Dict.find? st.user name = some u)
    (hp : Dict.find? st.pymathics name = none)
    (hb : Dict.find? st.builtin name = some b)
    (hnu : (u.options.map Prod.fst).Nodup)
    (hnb : (b.options.map Prod.fst).Nodup) :
    ∃ r : Definition,
      ((st.clear_cache (some name)).get_definition name false).1 = some r
      ∧ r.id = st.next_id
      ∧ r.id ≠ dOld.id := by
  have hC1 : Dict.find? (st.clear_cache (some name)).definitions_cache name
      = none := by
    show Dict.find?
      (((Dict.find? st.proxy (strip_context name)).getD []).foldl
        (fun d k => Dict.erase d k) st.definitions_cache) name = none
    exact Dict.find?_foldl_erase_of_mem _ _ _ hk hndD
  have hL1 : Dict.find? (st.clear_cache (some name)).lookup_cache name
      = none := by
    show Dict.find?
      (((Dict.find? st.proxy (strip_context name)).getD []).foldl
        (fun d k => Dict.erase d k) st.lookup_cache) name = none
    exact Dict.find?_foldl_erase_of_mem _ _ _ hk hndL
  obtain ⟨r, hr, hid, _, _, _, _⟩ :=
    merge_two_aux (st.clear_cache (some name)) name u b hC1 hL1 hfq hu hp hb
      hnu hnb
  refine ⟨r, hr, hid, ?_⟩
  intro he
  rw [he] at hid
  exact Nat.lt_irrefl _ (hid ▸ hidlt)

/-- Witness for C6: in the concrete two-namespace state, invalidating and
re-fetching yields the freshly allocated definition (id 3), distinct from
the stale cached object (id 2). -/
theorem invalidate_then_get_definition_fresh_witness :
    (((stC6w.clear_cache (some "Global`f")).get_definition "Global`f" false).1.map
      (fun r => r.id)) = some 3
    ∧ Dict.find? stC6w.definitions_cache "Global`f" = some dC6old
    ∧ dC6old.id = 2 := by
  obtain ⟨r, hr, hid, hne⟩ :=
    invalidate_then_get_definition_fresh stC6w "Global`f" dC6old dMu dMb rfl
      (by decide) rfl (by decide) (by decide) (by decide) rfl rfl rfl
      (by decide) (by decide)
  refine ⟨?_, rfl, rfl⟩
  rw [hr]
  simp only [Option.map_some']
  rw [hid]
  rfl

/-- C5 (amended): every mutating operation on a Definition — attribute
set/replace/clear, rule add/remove (`unset`), format/n-value/default/
message add, whole-category replacement, and option replacement — ends by
calling `clear_definitions_cache(name)`: it clears the short form's
reverse-index bucket and evicts every original name registered there from
the merged-definition cache only; the resolved-name (lookup) cache is left
untouched by the mutators themselves (it is cleared by definition creation
inside `get_user_definition` and by context or path changes, as the
source's own comment on `clear_cache` prescribes).  The mutation lands in
the user namespace with the logical clock stamped. -/
theorem mutators_clear_definitions_cache_only :
    (∀ (st : Definitions) (name : String) (attr : Nat) (d : Definition),
      st.lookup_name name = (name, st) →
      Dict.find? st.user name = some d →
      (st.set_attribute name attr).lookup_cache = st.lookup_cache
      ∧ (st.set_attribute name attr).definitions_cache
          = ((Dict.find? st.proxy (strip_context name)).getD []).foldl
              (fun dc k => Dict.erase dc k) st.definitions_cache
      ∧ (st.set_attribute name attr).proxy
          = Dict.erase st.proxy (strip_context name)
      ∧ Dict.find? (st.set_attribute name attr).user name
          = some { d with attributes := d.attributes ||| attr,
                          changed := some (st.now + 1) })
    ∧ (∀ (st : Definitions) (name : String) (attrs : Nat) (d : Definition),
      st.lookup_name name = (name, st) →
      Dict.find? st.user name = some d →
      (st.set_attributes name attrs).lookup_cache = st.lookup_cache
      ∧ (st.set_attributes name attrs).definitions_cache
          = ((Dict.find? st.proxy (strip_context name)).getD []).foldl
              (fun dc k => Dict.erase dc k) st.definitions_cache
      ∧ (st.set_attributes name attrs).proxy
          = Dict.erase st.proxy (strip_context name))
    ∧ (∀ (st : Definitions) (name : String) (attr : Nat) (d : Definition),
      st.lookup_name name = (name, st) →
      Dict.find? st.user name = some d →
      (st.clear_attribute name attr).lookup_cache = st.lookup_cache
      ∧ (st.clear_attribute name attr).definitions_cache
          = ((Dict.find? st.proxy (strip_context name)).getD []).foldl
              (fun dc k => Dict.erase dc k) st.definitions_cache
      ∧ (st.clear_attribute name attr).proxy
          = Dict.erase st.proxy (strip_context name))
    ∧ (∀ (st : Definitions) (name : String) (rule : Rule)
        (pos : Option String) (d : Definition),
      st.lookup_name name = (name, st) →
      Dict.find? st.user name = some d →
      (st.add_rule name rule pos).2.lookup_cache = st.lookup_cache
      ∧ (st.add_rule name rule pos).2.definitions_cache
          = ((Dict.find? st.proxy (strip_context name)).getD []).foldl
              (fun dc k => Dict.erase dc k) st.definitions_cache
      ∧ (st.add_rule name rule pos).2.proxy
          = Dict.erase st.proxy (strip_context name))
    ∧ (∀ (st : Definitions) (name : String) (rule : Rule) (form : FormArg)
        (d : Definition),
      st.lookup_name name = (name, st) →
      Dict.find? st.user name = some d →
      (st.add_format name rule form).lookup_cache = st.lookup_cache
      ∧ (st.add_format name rule form).definitions_cache
          = ((Dict.find? st.proxy (strip_context name)).getD []).foldl
              (fun dc k => Dict.erase dc k) st.definitions_cache
      ∧ (st.add_format name rule form).proxy
          = Dict.erase st.proxy (strip_context name))
    ∧ (∀ (st : Definitions) (name : String) (rule : Rule) (d : Definition),
      st.lookup_name name = (name, st) →
      Dict.find? st.user name = some d →
      (st.add_nvalue name rule).lookup_cache = st.lookup_cache
      ∧ (st.add_nvalue name rule).definitions_cache
          = ((Dict.find? st.proxy (strip_context name)).getD []).foldl
              (fun dc k => Dict.erase dc k) st.definitions_cache
      ∧ (st.add_nvalue name rule).proxy
          = Dict.erase st.proxy (strip_context name))
    ∧ (∀ (st : Definitions) (name : String) (rule : Rule) (d : Definition),
      st.lookup_name name = (name, st) →
      Dict.find? st.user name = some d →
      (st.add_default name rule).lookup_cache = st.lookup_cache
      ∧ (st.add_default name rule).definitions_cache
          = ((Dict.find? st.proxy (strip_context name)).getD []).foldl
              (fun dc k => Dict.erase dc k) st.definitions_cache
      ∧ (st.add_default name rule).proxy
          = Dict.erase st.proxy (strip_context name))
    ∧ (∀ (st : Definitions) (name : String) (rule : Rule) (d : Definition),
      st.lookup_name name = (name, st) →
      Dict.find? st.user name = some d →
      (st.add_message name rule).lookup_cache = st.lookup_cache
      ∧ (st.add_message name rule).definitions_cache
          = ((Dict.find? st.proxy (strip_context name)).getD []).foldl
              (fun dc k => Dict.erase dc k) st.definitions_cache
      ∧ (st.add_message name rule).proxy
          = Dict.erase st.proxy (strip_context name))
    ∧ (∀ (st : Definitions) (name values : String) (rules : List Rule)
        (d : Definition),
      st.lookup_name name = (name, st) →
      Dict.find? st.user name = some d →
      (st.set_values name values rules).lookup_cache = st.lookup_cache
      ∧ (st.set_values name values rules).definitions_cache
          = ((Dict.find? st.proxy (strip_context name)).getD []).foldl
              (fun dc k => Dict.erase dc k) st.definitions_cache
      ∧ (st.set_values name values rules).proxy
          = Dict.erase st.proxy (strip_context name))
    ∧ (∀ (st : Definitions) (name : String) (options : Dict Expr)
        (d : Definition),
      st.lookup_name name = (name, st) →
      Dict.find? st.user name = some d →
      (st.set_options name options).lookup_cache = st.lookup_cache
      ∧ (st.set_options name options).definitions_cache
          = ((Dict.find? st.proxy (strip_context name)).getD []).foldl
              (fun dc k => Dict.erase dc k) st.definitions_cache
      ∧ (st.set_options name options).proxy
          = Dict.erase st.proxy (strip_context name))
    ∧ (∀ (st : Definitions) (name : String) (e : Expr) (d : Definition),
      st.lookup_name name = (name, st) →
      Dict.find? st.user name = some d →
      (st.unset name e).2.lookup_cache = st.lookup_cache
      ∧ (st.unset name e).2.definitions_cache
          = ((Dict.find? st.proxy (strip_context name)).getD []).foldl
              (fun dc k => Dict.erase dc k) st.definitions_cache
      ∧ (st.unset name e).2.proxy
          = Dict.erase st.proxy (strip_context name)) := by
  refine ⟨?_, ?_, ?_, ?_, ?_, ?_, ?_, ?_, ?_, ?_, ?_⟩
  · intro st name attr d hres hd
    simp only [Definitions.set_attribute, hres,
      Definitions.get_user_definition, hd,
      Definitions.clear_definitions_cache]
    refine ⟨trivial, trivial, trivial, ?_⟩
    simp [Dict.find?_insert]
  · intro st name attrs d hres hd
    simp only [Definitions.set_attributes, hres,
      Definitions.get_user_definition, hd,
      Definitions.clear_definitions_cache]
    exact ⟨trivial, trivial, trivial⟩
  · intro st name attr d hres hd
    simp only [Definitions.clear_attribute, hres,
      Definitions.get_user_definition, hd,
      Definitions.clear_definitions_cache]
    exact ⟨trivial, trivial, trivial⟩
  · intro st name rule pos d hres hd
    simp only [Definitions.add_rule, hres,
      Definitions.get_user_definition, hd,
      Definitions.clear_definitions_cache]
    exact ⟨trivial, trivial, trivial⟩
  · intro st name rule form d hres hd
    simp only [Definitions.add_format, hres,
      Definitions.get_user_definition, hd,
      Definitions.clear_definitions_cache]
    exact ⟨trivial, trivial, trivial⟩
  · intro st name rule d hres hd
    simp only [Definitions.add_nvalue, hres,
      Definitions.get_user_definition, hd,
      Definitions.clear_definitions_cache]
    exact ⟨trivial, trivial, trivial⟩
  · intro st name rule d hres hd
    simp only [Definitions.add_default, hres,
      Definitions.get_user_definition, hd,
      Definitions.clear_definitions_cache]
    exact ⟨trivial, trivial, trivial⟩
  · intro st name rule d hres hd
    simp only [Definitions.add_message, hres,
      Definitions.get_user_definition, hd,
      Definitions.clear_definitions_cache]
    exact ⟨trivial, trivial, trivial⟩
  · intro st name values rules d hres hd
    simp only [Definitions.set_values, hres,
      Definitions.get_user_definition, hd,
      Definitions.clear_definitions_cache]
    exact ⟨trivial, trivial, trivial⟩
  · intro st name options d hres hd
    simp only [Definitions.set_options, hres,
      Definitions.get_user_definition, hd,
      Definitions.clear_definitions_cache]
    exact ⟨trivial, trivial, trivial⟩
  · intro st name e d hres hd
    simp only [Definitions.unset, hres,
      Definitions.get_user_definition, hd,
      Definitions.clear_definitions_cache]
    exact ⟨trivial, trivial, trivial⟩

/-- Witness for C5 (amended): in the concrete state each of the eleven
mutators keeps the lookup-cache entry; `set_attribute` moreover evicts the
merged-definition cache entry, clears the index bucket, and stores the
stamped user definition. -/
theorem mutators_clear_definitions_cache_only_witness :
    (stC5.set_attribute "Global`f" 1).lookup_cache = stC5.lookup_cache
    ∧ (stC5.set_attribute "Global`f" 1).definitions_cache
        = ((Dict.find? stC5.proxy "f").getD []).foldl
            (fun dc k => Dict.erase dc k) stC5.definitions_cache
    ∧ (stC5.set_attribute "Global`f" 1).proxy = Dict.erase stC5.proxy "f"
    ∧ Dict.find? (stC5.set_attribute "Global`f" 1).user "Global`f"
        = some { dUser5 with attributes := 1, changed := some 1 }
    ∧ (stC5.set_attributes "Global`f" 4).lookup_cache = stC5.lookup_cache
    ∧ (stC5.clear_attribute "Global`f" 1).lookup_cache = stC5.lookup_cache
    ∧ (stC5.add_rule "Global`f" (mkRule 1 fOfX) none).2.lookup_cache
        = stC5.lookup_cache
    ∧ (stC5.add_format "Global`f" (mkRule 1 fOfX) (FormArg.one "")).lookup_cache
        = stC5.lookup_cache
    ∧ (stC5.add_nvalue "Global`f" (mkRule 1 fOfX)).lookup_cache
        = stC5.lookup_cache
    ∧ (stC5.add_default "Global`f" (mkRule 1 fOfX)).lookup_cache
        = stC5.lookup_cache
    ∧ (stC5.add_message "Global`f" (mkRule 1 fOfX)).lookup_cache
        = stC5.lookup_cache
    ∧ (stC5.set_values "Global`f" "System`OwnValues" []).lookup_cache
        = stC5.lookup_cache
    ∧ (stC5.set_options "Global`f" []).lookup_cache = stC5.lookup_cache
    ∧ (stC5.unset "Global`f" fOfX).2.lookup_cache = stC5.lookup_cache
    ∧ (stC5.unset "Global`f" fOfX).2.definitions_cache
        = ((Dict.find? stC5.proxy "f").getD []).foldl
            (fun dc k => Dict.erase dc k) stC5.definitions_cache := by
  obtain ⟨h1, h2, h3, h4⟩ :=
    mutators_clear_definitions_cache_only.1 stC5 "Global`f" 1 dUser5 rfl rfl
  obtain ⟨hu1, hu2, _⟩ :=
    mutators_clear_definitions_cache_only.2.2.2.2.2.2.2.2.2.2 stC5 "Global`f"
      fOfX dUser5 rfl rfl
  refine ⟨h1, ?_, ?_, ?_, ?_, ?_, ?_, ?_, ?_, ?_, ?_, ?_, ?_, hu1, ?_⟩
  · rw [h2]
    rfl
  · rw [h3]
    rfl
  · rw [h4]
    rfl
  · exact (mutators_clear_definitions_cache_only.2.1 stC5 "Global`f" 4 dUser5
      rfl rfl).1
  · exact (mutators_clear_definitions_cache_only.2.2.1 stC5 "Global`f" 1
      dUser5 rfl rfl).1
  · exact (mutators_clear_definitions_cache_only.2.2.2.1 stC5 "Global`f"
      (mkRule 1 fOfX) none dUser5 rfl rfl).1
  · exact (mutators_clear_definitions_cache_only.2.2.2.2.1 stC5 "Global`f"
      (mkRule 1 fOfX) (FormArg.one "") dUser5 rfl rfl).1
  · exact (mutators_clear_definitions_cache_only.2.2.2.2.2.1 stC5 "Global`f"
      (mkRule 1 fOfX) dUser5 rfl rfl).1
  · exact (mutators_clear_definitions_cache_only.2.2.2.2.2.2.1 stC5 "Global`f"
      (mkRule 1 fOfX) dUser5 rfl rfl).1
  · exact (mutators_clear_definitions_cache_only.2.2.2.2.2.2.2.1 stC5
      "Global`f" (mkRule 1 fOfX) dUser5 rfl rfl).1
  · exact (mutators_clear_definitions_cache_only.2.2.2.2.2.2.2.2.1 stC5
      "Global`f" "System`OwnValues" [] dUser5 rfl rfl).1
  · exact (mutators_clear_definitions_cache_only.2.2.2.2.2.2.2.2.2.1 stC5
      "Global`f" [] dUser5 rfl rfl).1
  · rw [hu2]
    rfl

/-- C10: `unset` on a symbol with no user-namespace definition and a
pattern matching no rule returns `false` and still mutates state: a user
definition is created for the resolved name, the logical clock is
incremented, the new definition's `changed` field is stamped with the new
clock value, and the symbol's merged-definition cache entries are evicted
— the failed removal is not atomic. -/
theorem unset_missing_rule_mutates_state (st : Definitions) (name : String)
    (e : Expr) (k : String)
    (hres : st.lookup_name name = (name, st))
    (hu : Dict.find? st.user name = none)
    (hb : Dict.find? st.builtin name = none)
    (hk : k ∈ (Dict.find? st.proxy (strip_context name)).getD [])
    (hndD : (st.definitions_cache.map Prod.fst).Nodup)
    (hndP : (st.proxy.map Prod.fst).Nodup) :
    (st.unset name e).1 = false
    ∧ (st.unset name e).2.now = st.now + 1
    ∧ Dict.find? (st.unset name e).2.user name
        = some { Definition.mkEmpty st.next_id name A_NO_ATTRIBUTES false with
                 changed := some (st.now + 1) }
    ∧ Dict.find? (st.unset name e).2.definitions_cache k = none := by
  simp only [Definitions.unset, hres, Definitions.get_user_definition, hu, hb,
    Bool.not_true, Bool.false_eq_true, if_false, remove_rule_mkEmpty,
    Definitions.clear_cache, Definitions.clear_definitions_cache]
  refine ⟨trivial, trivial, ?_, ?_⟩
  · simp [Dict.find?_insert]
  · rw [Dict.find?_erase_self st.proxy (strip_context name) hndP]
    simp only [Option.getD_none, List.foldl_nil]
    exact Dict.find?_foldl_erase_of_mem _ _ _ hk hndD

/-- Witness for C10: in the concrete state with no user definition, the
failed `unset` returns `false`, bumps the clock from 7 to 8, creates the
stamped user definition with the next allocation id, and evicts the cached
merged definition. -/
theorem unset_missing_rule_mutates_state_witness :
    (stC10.unset "Global`g" fOfX).1 = false
    ∧ (stC10.unset "Global`g" fOfX).2.now = 8
    ∧ Dict.find? (stC10.unset "Global`g" fOfX).2.user "Global`g"
        = some { Definition.mkEmpty 5 "Global`g" 0 false with changed := some 8 }
    ∧ Dict.find? (stC10.unset "Global`g" fOfX).2.definitions_cache "Global`g"
        = none := by
  obtain ⟨h1, h2, h3, h4⟩ :=
    unset_missing_rule_mutates_state stC10 "Global`g" fOfX "Global`g" rfl rfl
      rfl (by decide) (by decide) (by decide)
  exact ⟨h1, h2.trans rfl, h3.trans rfl, h4⟩

/-- C8 (amended): the resolved-name cache is keyed by the original input
string and is cleared wholesale when the current context or the context
search path changes, and cleared for a symbol's short form when
`get_user_definition` creates a new user definition; symbols auto-vivified
by `get_definition` itself, however, are registered without any cache
invalidation, so a cached resolution can survive the appearance of a
candidate-context symbol that would change it. -/
theorem lookup_cache_invalidation_points :
    (∀ (st : Definitions) (c : String),
      (st.set_current_context c).lookup_cache = []
      ∧ (st.set_current_context c).definitions_cache = []
      ∧ (st.set_current_context c).proxy = [])
    ∧ (∀ (st : Definitions) (p : List String),
      (st.set_context_path p).lookup_cache = []
      ∧ (st.set_context_path p).definitions_cache = []
      ∧ (st.set_context_path p).proxy = [])
    ∧ (∀ (st : Definitions) (name k : String),
      Dict.find? st.user name = none →
      k ∈ (Dict.find? st.proxy (strip_context name)).getD [] →
      (st.lookup_cache.map Prod.fst).Nodup →
      (st.definitions_cache.map Prod.fst).Nodup →
      Dict.find? (st.get_user_definition name true).2.lookup_cache k = none
      ∧ Dict.find? (st.get_user_definition name true).2.definitions_cache k
          = none) := by
  refine ⟨?_, ?_, ?_⟩
  · intro st c
    exact ⟨rfl, rfl, rfl⟩
  · intro st p
    exact ⟨rfl, rfl, rfl⟩
  · intro st name k hu hk hndL hndD
    simp only [Definitions.get_user_definition, hu, Bool.not_true,
      Bool.false_eq_true, if_false, Definitions.clear_cache]
    exact ⟨Dict.find?_foldl_erase_of_mem _ _ _ hk hndL,
      Dict.find?_foldl_erase_of_mem _ _ _ hk hndD⟩

/-- Witness for C8 (amended): a context switch and a path switch clear the
lookup cache; creating the missing user definition for the cached symbol
evicts both of its cache entries. -/
theorem lookup_cache_invalidation_points_witness :
    (emptyDefs.set_current_context "Test`").lookup_cache = []
    ∧ (emptyDefs.set_context_path ["System`"]).lookup_cache = []
    ∧ Dict.find? (stC10.get_user_definition "Global`g" true).2.definitions_cache
        "Global`g" = none := by
  refine ⟨(lookup_cache_invalidation_points.1 emptyDefs "Test`").1,
    (lookup_cache_invalidation_points.2.1 emptyDefs ["System`"]).1,
    (lookup_cache_invalidation_points.2.2 stC10 "Global`g" "Global`g" rfl
      (by decide) (by decide) (by decide)).2⟩
